import Mathlib

/-!
Verification of the price-optimization system: a shallow embedding of the
competitor matcher, the price aggregation of the competitive-analysis page,
the task-history storage utility, the price optimizer, the batch
coordinator and the scrape-job orchestrator, together with theorems
settling the specified properties.

Numeric values of the program (JavaScript numbers) are embedded as
rationals; strings as Lean strings; absent values as `Option`.
-/

namespace PriceOptim

/-! ### String utilities: the JavaScript `String.prototype.includes` -/

/-- Does the character list start with the given needle? -/
def chStarts : List Char → List Char → Bool
  | [], _ => true
  | _ :: _, [] => false
  | a :: as, b :: bs => a = b && chStarts as bs

/-- Does the needle occur as a contiguous run inside the haystack? -/
def chSub (needle : List Char) : List Char → Bool
  | [] => needle.isEmpty
  | b :: bs => chStarts needle (b :: bs) || chSub needle bs

/-- Embedding of `hay.includes(needle)` on JavaScript strings. -/
def strIncludes (hay needle : String) : Bool :=
  chSub needle.data hay.data

/-- Embedding of the JavaScript `toLowerCase()`: lowercase every
character. -/
def strLower (s : String) : String :=
  ⟨s.data.map Char.toLower⟩

/-! ### Data model: scraped observations (from `data-contracts.ts`) -/

/-- Embedding of the `ScrapedProduct` contract
(`src/frontend/src/brain/data-contracts.ts`), restricted to the fields
the analysed code reads.  `price` and `match_score` are optional. -/
structure ScrapedProduct where
  store_name : String
  title : String
  price : Option ℚ
  currency : String
  in_stock : Bool
  product_url : String
  match_score : Option ℚ
  deriving DecidableEq, Repr

/-- Embedding of the `CompetitorData` contract sent to the optimizer. -/
structure CompetitorData where
  store_name : String
  price : ℚ
  currency : String
  in_stock : Bool
  match_confidence : ℚ
  product_url : String
  deriving DecidableEq, Repr

/-! ### Competitor Matcher (from `CompetitiveAnalysis.tsx` lines 139-143 and
`PricingRecommendations.tsx` lines 181-192) -/

/-- Embedding of the JavaScript truthiness coercion `result.match_score || 0`:
an absent or zero match score yields `0`. -/
def jsScore : Option ℚ → ℚ
  | none => 0
  | some s => if s = 0 then 0 else s

/-- Embedding of the matcher acceptance test of the source,
`(product.category && result.title.toLowerCase().includes(product.category))
|| (result.match_score && result.match_score > 0.1)`, with JavaScript
truthiness made explicit: an absent or empty category never matches, and an
absent or zero match score never passes the threshold. -/
def matcherAccepts (category : Option String) (r : ScrapedProduct) : Bool :=
  (match category with
   | none => false
   | some c => (c ≠ "") && strIncludes (strLower r.title) c)
  ||
  (match r.match_score with
   | none => false
   | some s => (s ≠ 0) && decide ((1 : ℚ)/10 < s))

/-- Modelled from the spec (refinement comparison only): acceptance as the
claim words it, with category containment fully case-insensitive
(both sides lowercased). -/
def specMatcherAccepts (category : Option String) (r : ScrapedProduct) : Bool :=
  (match category with
   | none => false
   | some c => strIncludes (strLower r.title) (strLower c))
  || decide ((1 : ℚ)/10 < jsScore r.match_score)

/-- Embedding of the mapping of an accepted observation to the competitor
record sent to the optimizer (`PricingRecommendations.tsx` lines 185-192):
`match_confidence: result.match_score || 0`. -/
def toCompetitorData (r : ScrapedProduct) : CompetitorData :=
  { store_name := r.store_name
    price := r.price.getD 0
    currency := r.currency
    in_stock := r.in_stock
    match_confidence := jsScore r.match_score
    product_url := r.product_url }

/-! ### Price aggregation (from `CompetitiveAnalysis.tsx` lines 146-155) -/

/-- Embedding of the JavaScript truthiness filter `c.price && c.price > 0`:
keep a price that is present, nonzero and positive. -/
def keepPrice : Option ℚ → Bool
  | none => false
  | some q => (q ≠ 0) && decide ((0 : ℚ) < q)

/-- Embedding of
`competitors.filter(c => c.price && c.price > 0).map(c => c.price!)`:
the present, nonzero, positive prices of the observations. -/
def positivePrices (cs : List ScrapedProduct) : List ℚ :=
  (cs.filter (fun c => keepPrice c.price)).map (fun c => c.price.getD 0)

/-- Embedding of `Math.min(...prices)` on a nonempty list ( `0` on `[]`,
which the source never reaches). -/
def jsMinList : List ℚ → ℚ
  | [] => 0
  | x :: xs => xs.foldl min x

/-- Embedding of `Math.max(...prices)` on a nonempty list. -/
def jsMaxList : List ℚ → ℚ
  | [] => 0
  | x :: xs => xs.foldl max x

/-- Embedding of `[...prices].sort((a, b) => a - b)`: ascending sort. -/
def sortAsc (l : List ℚ) : List ℚ :=
  List.insertionSort (· ≤ ·) l

/-- Embedding of the median computation of the source: middle element of
the ascending sorted list, or the mean of the two middle elements when the
length is even. -/
def medianOf (l : List ℚ) : ℚ :=
  if (sortAsc l).length % 2 = 0 then
    ((sortAsc l).getD ((sortAsc l).length / 2 - 1) 0 +
        (sortAsc l).getD ((sortAsc l).length / 2) 0) / 2
  else
    (sortAsc l).getD ((sortAsc l).length / 2) 0

/-! ### Competitive position (from `CompetitiveAnalysis.tsx` lines 156-184) -/

/-- Embedding of the `OurProduct` record of `CompetitiveAnalysis.tsx`. -/
structure OurProduct where
  id : String
  name : String
  current_price : ℚ
  unit_cost : ℚ
  currency : String
  category : Option String
  deriving DecidableEq, Repr

/-- Embedding of the USD conversion of the source:
`product.currency === 'EUR' ? product.current_price * 1.1 : product.current_price`. -/
def ourPriceUsd (p : OurProduct) : ℚ :=
  if p.currency = "EUR" then p.current_price * (11/10) else p.current_price

/-- Embedding of the `ComparisonRow` record of `CompetitiveAnalysis.tsx`,
restricted to the analysed fields. -/
structure ComparisonRow where
  min_price : ℚ
  max_price : ℚ
  median_price : ℚ
  avg_price : ℚ
  our_position : String
  profit_opportunity : ℚ
  competitor_count : ℕ
  deriving DecidableEq, Repr

/-- Embedding of the competitor filter of `generateComparisonData`:
the observations the matcher accepts for the product. -/
def matchedCompetitors (p : OurProduct) (results : List ScrapedProduct) :
    List ScrapedProduct :=
  results.filter (fun r => matcherAccepts p.category r)

/-- Embedding of the position classification of the source: underpriced
below the market minimum, overpriced above the market maximum, competitive
in between. -/
def positionOf (usd mn mx : ℚ) : String :=
  if usd < mn then "underpriced"
  else if usd > mx then "overpriced"
  else "competitive"

/-- Embedding of the profit-opportunity computation of the source: 80% of
the gap to the median when underpriced, 0 otherwise. -/
def opportunityOf (pos : String) (md usd : ℚ) : ℚ :=
  if pos = "underpriced" then (md - usd) * (8/10) else 0

/-- Embedding of the per-product body of `generateComparisonData`
(`CompetitiveAnalysis.tsx` lines 137-187): filter the observations through
the matcher, aggregate the positive prices, classify the position against
the USD-converted own price and compute the profit opportunity.  Returns
`none` when no competitor or no positive price remains, as the source then
pushes no row. -/
def makeComparisonRow (p : OurProduct) (results : List ScrapedProduct) :
    Option ComparisonRow :=
  if (matchedCompetitors p results).isEmpty then none
  else if (positivePrices (matchedCompetitors p results)).isEmpty then none
  else some
    { min_price := jsMinList (positivePrices (matchedCompetitors p results))
      max_price := jsMaxList (positivePrices (matchedCompetitors p results))
      median_price := medianOf (positivePrices (matchedCompetitors p results))
      avg_price :=
        ((positivePrices (matchedCompetitors p results)).foldl (· + ·) (0 : ℚ)) /
          ((positivePrices (matchedCompetitors p results)).length : ℚ)
      our_position :=
        positionOf (ourPriceUsd p)
          (jsMinList (positivePrices (matchedCompetitors p results)))
          (jsMaxList (positivePrices (matchedCompetitors p results)))
      profit_opportunity :=
        opportunityOf
          (positionOf (ourPriceUsd p)
            (jsMinList (positivePrices (matchedCompetitors p results)))
            (jsMaxList (positivePrices (matchedCompetitors p results))))
          (medianOf (positivePrices (matchedCompetitors p results)))
          (ourPriceUsd p)
      competitor_count := (matchedCompetitors p results).length }

/-! ### Task-history storage (from `src/src/utils/storage.ts` lines 29-33) -/

/-- Embedding of the `TaskHistory` record of `storage.ts`. -/
structure TaskHistory where
  taskId : String
  startedAt : String
  status : String
  productCount : Option ℕ
  deriving DecidableEq, Repr

/-- Embedding of `StorageUtils.addTaskToHistory`: the stored history
becomes `[task, ...existingHistory.slice(0, 9)]`. -/
def addTaskToHistory (t : TaskHistory) (history : List TaskHistory) :
    List TaskHistory :=
  t :: history.take 9

/-! ### Price Optimizer

Modelled from the spec: the backend module `app/apis/price_optimization`
is not part of the shared sources (only its request/response contracts in
`data-contracts.ts` and its callers are), so the optimizer below follows
the algorithm of spec section 4.3 step by step. -/

/-- Embedding of the `ProductInput` contract. -/
structure ProductInput where
  id : String
  name : String
  current_price : ℚ
  unit_cost : ℚ
  currency : String
  category : Option String
  brand : Option String
  deriving DecidableEq, Repr

/-- Embedding of the `OptimizationConstraints` contract. -/
structure OptimizationConstraints where
  min_margin_percent : ℚ
  max_price_increase_percent : ℚ
  psychological_pricing : Bool
  competitive_positioning : String
  demand_sensitivity : ℚ
  deriving DecidableEq, Repr

/-- Embedding of the `PriceRecommendation` contract, with the open-ended
`scenario_analysis` record modelled as labelled projected profit deltas. -/
structure PriceRecommendation where
  product_id : String
  current_price : ℚ
  recommended_price : ℚ
  currency : String
  price_change : ℚ
  price_change_percent : ℚ
  expected_demand_change_percent : ℚ
  expected_profit_change : ℚ
  expected_revenue_change : ℚ
  confidence_score : ℚ
  risk_level : String
  rationale : String
  competitive_position : String
  psychological_price_applied : Bool
  constraint_flags : List String
  scenario_analysis : List (String × ℚ)
  deriving DecidableEq, Repr

/-- Modelled from the spec: fixed conversion rate into the common currency,
a configuration constant per currency (the frontend uses 1 EUR = 1.1 USD). -/
def conversionRate (c : String) : ℚ :=
  if c = "EUR" then 11/10 else 1

/-- Modelled from the spec (section 4.3 step 4): the upward price cap
`currentPrice * (1 + maxPriceIncreasePercent/100)`. -/
def upperCap (p : ProductInput) (c : OptimizationConstraints) : ℚ :=
  p.current_price * (1 + c.max_price_increase_percent / 100)

/-- Modelled from the spec (section 4.3 step 4): the least price whose
margin `(price - unitCost)/price` reaches `minMarginPercent/100`, namely
`unitCost / (1 - minMarginPercent/100)`. -/
def marginFloor (p : ProductInput) (c : OptimizationConstraints) : ℚ :=
  p.unit_cost / (1 - c.min_margin_percent / 100)

/-- Modelled from the spec (section 4.3 step 4): clamp the candidate price,
first capping the upward movement, then raising to the margin floor, and
record each binding bound in the constraint flags.  The margin floor is
applied last, so it overrides the cap. -/
def clampPrice (p : ProductInput) (c : OptimizationConstraints) (cand : ℚ) :
    ℚ × List String :=
  if upperCap p c < cand then
    if upperCap p c < marginFloor p c then
      (marginFloor p c, ["increase_cap_applied", "margin_floor_applied"])
    else (upperCap p c, ["increase_cap_applied"])
  else
    if cand < marginFloor p c then (marginFloor p c, ["margin_floor_applied"])
    else (cand, [])

/-- Modelled from the spec (section 4.3 step 5): the conventional price
endings nearest to `q`, the `.95` and `.99` endings of the whole-unit
amounts on either side. -/
def psychCandidates (q : ℚ) : List ℚ :=
  [((⌊q⌋ : ℚ) - 1) + 95/100, ((⌊q⌋ : ℚ) - 1) + 99/100,
   (⌊q⌋ : ℚ) + 95/100, (⌊q⌋ : ℚ) + 99/100]

/-- Modelled from the spec: the candidate ending nearest to `q`
(first wins on ties). -/
def nearestPsych (q : ℚ) : ℚ :=
  match psychCandidates q with
  | [] => q
  | c :: cs => cs.foldl (fun b x => if |q - x| < |q - b| then x else b) c

/-- Modelled from the spec (section 4.3 step 5): round to the nearest
conventional ending unless rounding would breach the margin floor, in
which case rounding is skipped and flagged.  Returns the price, whether
psychological pricing was applied, and the extra flags. -/
def applyPsych (enabled : Bool) (floorPrice q : ℚ) : ℚ × Bool × List String :=
  if enabled then
    if nearestPsych q < floorPrice then
      (q, false, ["psychological_pricing_skipped"])
    else (nearestPsych q, true, [])
  else (q, false, [])

/-- Modelled from the spec (section 4.3 step 3): anchor price by
competitive positioning — aggressive near the market minimum, premium near
the market maximum, competitive near the median. -/
def anchorPrice (positioning : String) (mn md mx : ℚ) : ℚ :=
  if positioning = "aggressive" then mn
  else if positioning = "premium" then mx
  else md

/-- Modelled from the spec (section 4.3 step 2): the constraints-only
fallback applies the positioning as a fixed percentage delta from the
current price. -/
def fallbackFactor (positioning : String) : ℚ :=
  if positioning = "aggressive" then 95/100
  else if positioning = "premium" then 105/100
  else 1

/-- Modelled from the spec (section 4.3 step 7): confidence of the
constraints-only fallback strategy. -/
def fallbackConfidence : ℚ := 3/10

/-- Modelled from the spec (section 4.3 step 7): confidence rising with
the competitor sample size and the average match score, bounded above. -/
def marketConfidence (n : ℕ) (avgMatch : ℚ) : ℚ :=
  min (9/10) (1/2 + (n : ℚ) * (1/25) + avgMatch * (1/5))

/-- Modelled from the spec (section 4.3 step 6): elasticity constant of the
demand model. -/
def elasticityConstant : ℚ := 3/2

/-- Modelled from the spec (section 4.3 step 6): baseline projected unit
volume at the current price. -/
def baselineVolume : ℚ := 100

/-- Modelled from the spec (section 4.3 step 8): high risk when a
constraint was binding or the sample holds at most one competitor, low
risk when the change is small and the margin sits comfortably above the
floor, medium otherwise. -/
def riskOf (flags : List String) (n : ℕ) (pcp margin mmp : ℚ) : String :=
  if flags ≠ [] ∨ n ≤ 1 then "high"
  else if |pcp| < 5 ∧ mmp / 100 + 5/100 ≤ margin then "low"
  else "medium"

/-- Modelled from the spec (section 4.3 step 1): the competitor prices kept
for aggregation — positive, converted into the product's currency at the
fixed configured rates. -/
def optPrices (p : ProductInput) (os : List CompetitorData) : List ℚ :=
  (os.filter (fun o => decide ((0 : ℚ) < o.price))).map
    (fun o => o.price * conversionRate o.currency / conversionRate p.currency)

/-- Modelled from the spec (section 4.3 steps 2-3): the unclamped candidate
price — market-anchored when competitor prices exist, moved from the
current price toward the anchor by the demand sensitivity; otherwise the
constraints-only fallback delta. -/
def candidateOf (p : ProductInput) (c : OptimizationConstraints)
    (prices : List ℚ) : ℚ :=
  if prices.isEmpty then
    p.current_price * fallbackFactor c.competitive_positioning
  else
    p.current_price +
      c.demand_sensitivity *
        (anchorPrice c.competitive_positioning (jsMinList prices)
            (medianOf prices) (jsMaxList prices) -
          p.current_price)

/-- The recommended price after clamping and psychological rounding. -/
def finalPrice (p : ProductInput) (c : OptimizationConstraints) (cand : ℚ) : ℚ :=
  (applyPsych c.psychological_pricing (marginFloor p c) (clampPrice p c cand).1).1

/-- The constraint flags accumulated by clamping and psychological
rounding. -/
def finalFlags (p : ProductInput) (c : OptimizationConstraints) (cand : ℚ) :
    List String :=
  (clampPrice p c cand).2 ++
    (applyPsych c.psychological_pricing (marginFloor p c)
        (clampPrice p c cand).1).2.2

/-- Whether psychological rounding altered the price. -/
def psychAppliedOf (p : ProductInput) (c : OptimizationConstraints)
    (cand : ℚ) : Bool :=
  (applyPsych c.psychological_pricing (marginFloor p c)
      (clampPrice p c cand).1).2.1

/-- Modelled from the spec (section 4.3 steps 2-10): the recommendation
built for a valid product. -/
def mkRecommendation (p : ProductInput) (os : List CompetitorData)
    (c : OptimizationConstraints) : PriceRecommendation :=
  let used := os.filter (fun o => decide ((0 : ℚ) < o.price))
  let prices := optPrices p os
  let isFallback := prices.isEmpty
  let newP := finalPrice p c (candidateOf p c prices)
  let flags := finalFlags p c (candidateOf p c prices)
  let change := newP - p.current_price
  let pcp := change / p.current_price * 100
  let demand := -elasticityConstant * pcp * c.demand_sensitivity
  let newVolume := baselineVolume * (1 + demand / 100)
  let profitChange :=
    (newP - p.unit_cost) * newVolume -
      (p.current_price - p.unit_cost) * baselineVolume
  let revenueChange := newP * newVolume - p.current_price * baselineVolume
  let n := used.length
  let avgMatch :=
    if n = 0 then 0
    else ((used.map (fun o => o.match_confidence)).foldl (· + ·) 0) / (n : ℚ)
  let conf := if isFallback then fallbackConfidence else marketConfidence n avgMatch
  let margin := (newP - p.unit_cost) / newP
  let risk := riskOf flags n pcp margin c.min_margin_percent
  let position :=
    if isFallback then "unknown"
    else if p.current_price < jsMinList prices then "underpriced"
    else if p.current_price > jsMaxList prices then "overpriced"
    else "competitive"
  { product_id := p.id
    current_price := p.current_price
    recommended_price := newP
    currency := p.currency
    price_change := change
    price_change_percent := pcp
    expected_demand_change_percent := demand
    expected_profit_change := profitChange
    expected_revenue_change := revenueChange
    confidence_score := conf
    risk_level := risk
    rationale :=
      (if isFallback then "constraints-only fallback; " else "market-anchored; ")
        ++ "position: " ++ position ++ "; risk: " ++ risk
    competitive_position := position
    psychological_price_applied := psychAppliedOf p c (candidateOf p c prices)
    constraint_flags := flags
    scenario_analysis :=
      [("no_change", 0), ("recommended", profitChange),
       ("conservative",
        ((p.current_price + newP) / 2 - p.unit_cost) * baselineVolume -
          (p.current_price - p.unit_cost) * baselineVolume)] }

/-- Modelled from the spec (section 4.3): the Price Optimizer.  Validates
the product, then builds the recommendation; fails with `InvalidInput`
exactly on malformed product data. -/
def optimize (p : ProductInput) (os : List CompetitorData)
    (c : OptimizationConstraints) : Except String PriceRecommendation :=
  if p.current_price ≤ 0 ∨ p.unit_cost > p.current_price then
    Except.error "InvalidInput"
  else
    Except.ok (mkRecommendation p os c)

/-- Modelled from the spec (section 4.4): the Batch Coordinator runs the
optimizer per product, keeps the successful results, and returns them
ordered by descending expected profit change.  Mirrors the descending
sort of `PricingRecommendations.tsx` lines 222-230. -/
def optimizeBatch (ps : List ProductInput)
    (compData : String → List CompetitorData)
    (c : OptimizationConstraints) : List PriceRecommendation :=
  List.insertionSort
    (fun a b => b.expected_profit_change ≤ a.expected_profit_change)
    (ps.filterMap (fun p => (optimize p (compData p.id) c).toOption))

/-! ### Scrape Job Orchestrator

Modelled from the spec: the backend module `app/apis/competitor_scraping`
is not part of the shared sources (only the `ScrapingProgress` contract and
the polling frontend are), so the job life cycle below follows spec
sections 3 and 4.1: created pending, transitions to running, one
increment of `completedStores` per finishing worker with per-store
failures appended to `errors`, completion when all workers finished, and
a terminal failure transition that keeps the collected errors. -/

/-- Job status of the `ScrapingProgress` contract. -/
inductive ScrapeStatus
  | pending
  | running
  | completed
  | failed
  deriving DecidableEq, Repr

/-- Embedding of the `ScrapeJob` record of the `ScrapingProgress`
contract. -/
structure ScrapeJob where
  status : ScrapeStatus
  current_store : Option String
  completed_stores : ℕ
  total_stores : ℕ
  products_found : ℕ
  errors : List String
  deriving DecidableEq, Repr

/-- Modelled from the spec: the job record created on submission. -/
def initJob (stores : List String) : ScrapeJob :=
  { status := .pending
    current_store := none
    completed_stores := 0
    total_stores := stores.length
    products_found := 0
    errors := [] }

/-- Modelled from the spec (section 4.1): the orchestrator's transitions on
the job record.  Workers only finish while the job runs and stores remain;
errors are only ever appended; `completed` and `failed` are terminal. -/
inductive JobStep : ScrapeJob → ScrapeJob → Prop
  | start (j : ScrapeJob) (h : j.status = .pending) :
      JobStep j { j with status := .running }
  | workerOk (j : ScrapeJob) (found : ℕ) (cs : Option String)
      (h : j.status = .running) (hlt : j.completed_stores < j.total_stores) :
      JobStep j
        { j with
          completed_stores := j.completed_stores + 1
          products_found := j.products_found + found
          current_store := cs }
  | workerFail (j : ScrapeJob) (e : String) (cs : Option String)
      (h : j.status = .running) (hlt : j.completed_stores < j.total_stores) :
      JobStep j
        { j with
          completed_stores := j.completed_stores + 1
          current_store := cs
          errors := j.errors ++ [e] }
  | finish (j : ScrapeJob) (h : j.status = .running)
      (hall : j.completed_stores = j.total_stores) :
      JobStep j { j with status := .completed, current_store := none }
  | abort (j : ScrapeJob) (e : String) (h : j.status = .running) :
      JobStep j { j with status := .failed, errors := j.errors ++ [e] }

/-- A job state the orchestrator can reach from submission on the given
target stores. -/
def JobReachable (stores : List String) (j : ScrapeJob) : Prop :=
  Relation.ReflTransGen JobStep (initJob stores) j

/-! ### Concrete fixtures for witnesses and counterexamples -/

/-- A valid demo product (positive price, cost below price). -/
def demoProduct : ProductInput :=
  { id := "p1", name := "demo", current_price := 100, unit_cost := 10
    currency := "EUR", category := none, brand := none }

/-- Demo constraints: competitive positioning, no psychological rounding. -/
def demoConstraints : OptimizationConstraints :=
  { min_margin_percent := 20, max_price_increase_percent := 50
    psychological_pricing := false, competitive_positioning := "competitive"
    demand_sensitivity := 1 }

/-- The recommendation the optimizer produces for the demo product with no
competitor data. -/
def demoRec : PriceRecommendation := mkRecommendation demoProduct [] demoConstraints

/-- Constraints with a tight 3% increase cap and aggressive positioning. -/
def capCexConstraints : OptimizationConstraints :=
  { min_margin_percent := 20, max_price_increase_percent := 3
    psychological_pricing := false, competitive_positioning := "aggressive"
    demand_sensitivity := 1 }

/-- An observation whose title holds the word Bottle with a capital B. -/
def titleCexObs : ScrapedProduct :=
  { store_name := "s1", title := "Bottle deal", price := some 10
    currency := "USD", in_stock := true, product_url := "u"
    match_score := none }

/-- A demo catalog product of the competitive-analysis page. -/
def demoOurProduct : OurProduct :=
  { id := "SG1", name := "demo", current_price := 50, unit_cost := 10
    currency := "EUR", category := some "bottle" }

/-- The comparison row the analysis builds for the demo product against the
single demo observation. -/
def demoRow : ComparisonRow :=
  { min_price := 10, max_price := 10, median_price := 10, avg_price := 10
    our_position := "overpriced", profit_opportunity := 0
    competitor_count := 1 }

/-- An invalid product: unit cost above the current price. -/
def badProduct : ProductInput :=
  { id := "p3", name := "bad", current_price := 5, unit_cost := 9
    currency := "EUR", category := none, brand := none }

/-! ### Helper lemmas on folds, sorting and the clamping pipeline -/

theorem foldl_min_le_init : ∀ (l : List ℚ) (a : ℚ), l.foldl min a ≤ a
  | [], _ => le_refl _
  | x :: xs, a =>
      le_trans (foldl_min_le_init xs (min a x)) (min_le_left a x)

theorem foldl_min_le_mem :
    ∀ (l : List ℚ) (a x : ℚ), x ∈ l → l.foldl min a ≤ x
  | y :: ys, a, x, hx => by
      rcases List.mem_cons.mp hx with h | h
      · subst h
        exact le_trans (foldl_min_le_init ys (min a x)) (min_le_right a x)
      · exact foldl_min_le_mem ys (min a y) x h

theorem foldl_min_eq_or_mem :
    ∀ (l : List ℚ) (a : ℚ), l.foldl min a = a ∨ l.foldl min a ∈ l
  | [], a => Or.inl rfl
  | x :: xs, a => by
      rcases foldl_min_eq_or_mem xs (min a x) with h | h
      · rcases min_choice a x with hm | hm
        · exact Or.inl (by rw [List.foldl_cons, h, hm])
        · exact Or.inr (by rw [List.foldl_cons, h, hm]; exact List.mem_cons_self x xs)
      · exact Or.inr (List.mem_cons_of_mem x h)

theorem init_le_foldl_max : ∀ (l : List ℚ) (a : ℚ), a ≤ l.foldl max a
  | [], _ => le_refl _
  | x :: xs, a =>
      le_trans (le_max_left a x) (init_le_foldl_max xs (max a x))

theorem mem_le_foldl_max :
    ∀ (l : List ℚ) (a x : ℚ), x ∈ l → x ≤ l.foldl max a
  | y :: ys, a, x, hx => by
      rcases List.mem_cons.mp hx with h | h
      · subst h
        exact le_trans (le_max_right a x) (init_le_foldl_max ys (max a x))
      · exact mem_le_foldl_max ys (max a y) x h

theorem foldl_max_eq_or_mem :
    ∀ (l : List ℚ) (a : ℚ), l.foldl max a = a ∨ l.foldl max a ∈ l
  | [], a => Or.inl rfl
  | x :: xs, a => by
      rcases foldl_max_eq_or_mem xs (max a x) with h | h
      · rcases max_choice a x with hm | hm
        · exact Or.inl (by rw [List.foldl_cons, h, hm])
        · exact Or.inr (by rw [List.foldl_cons, h, hm]; exact List.mem_cons_self x xs)
      · exact Or.inr (List.mem_cons_of_mem x h)

theorem jsMinList_mem {l : List ℚ} (h : l ≠ []) : jsMinList l ∈ l := by
  cases l with
  | nil => exact absurd rfl h
  | cons x xs =>
      rcases foldl_min_eq_or_mem xs x with h1 | h1
      · rw [jsMinList, h1]; exact List.mem_cons_self x xs
      · exact List.mem_cons_of_mem x h1

theorem jsMinList_le {l : List ℚ} {x : ℚ} (hx : x ∈ l) : jsMinList l ≤ x := by
  cases l with
  | nil => cases hx
  | cons y ys =>
      rcases List.mem_cons.mp hx with h | h
      · subst h; exact foldl_min_le_init ys x
      · exact foldl_min_le_mem ys y x h

theorem jsMaxList_mem {l : List ℚ} (h : l ≠ []) : jsMaxList l ∈ l := by
  cases l with
  | nil => exact absurd rfl h
  | cons x xs =>
      rcases foldl_max_eq_or_mem xs x with h1 | h1
      · rw [jsMaxList, h1]; exact List.mem_cons_self x xs
      · exact List.mem_cons_of_mem x h1

theorem le_jsMaxList {l : List ℚ} {x : ℚ} (hx : x ∈ l) : x ≤ jsMaxList l := by
  cases l with
  | nil => cases hx
  | cons y ys =>
      rcases List.mem_cons.mp hx with h | h
      · subst h; exact init_le_foldl_max ys x
      · exact mem_le_foldl_max ys y x h

theorem sortAsc_perm (l : List ℚ) : List.Perm (sortAsc l) l :=
  List.perm_insertionSort (· ≤ ·) l

theorem sortAsc_sorted (l : List ℚ) : (sortAsc l).Sorted (· ≤ ·) :=
  List.sorted_insertionSort (· ≤ ·) l

theorem medianOf_bounds {l : List ℚ} (h : l ≠ []) :
    jsMinList l ≤ medianOf l ∧ medianOf l ≤ jsMaxList l := by
  have hperm := sortAsc_perm l
  have hlen : (sortAsc l).length = l.length := hperm.length_eq
  have hpos : 0 < l.length := List.length_pos.mpr h
  have hhalf : l.length / 2 < l.length := Nat.div_lt_self hpos one_lt_two
  have hmem : ∀ i : ℕ, i < l.length → (sortAsc l).getD i 0 ∈ l := by
    intro i hi
    have hi' : i < (sortAsc l).length := by rw [hlen]; exact hi
    rw [List.getD_eq_getElem _ _ hi']
    exact hperm.mem_iff.mp (List.getElem_mem _)
  have hlow : ∀ i : ℕ, i < l.length → jsMinList l ≤ (sortAsc l).getD i 0 :=
    fun i hi => jsMinList_le (hmem i hi)
  have hhigh : ∀ i : ℕ, i < l.length → (sortAsc l).getD i 0 ≤ jsMaxList l :=
    fun i hi => le_jsMaxList (hmem i hi)
  have hhalf1 : l.length / 2 - 1 < l.length :=
    lt_of_le_of_lt (Nat.sub_le _ _) hhalf
  rw [medianOf]
  simp only [hlen]
  split
  · constructor
    · have h1 := hlow _ hhalf1
      have h2 := hlow _ hhalf
      linarith
    · have h1 := hhigh _ hhalf1
      have h2 := hhigh _ hhalf
      linarith
  · exact ⟨hlow _ hhalf, hhigh _ hhalf⟩

theorem jsMinList_le_jsMaxList {l : List ℚ} (h : l ≠ []) :
    jsMinList l ≤ jsMaxList l :=
  le_trans (jsMinList_le (jsMaxList_mem h)) (le_refl _)

/-- A price at or above the margin floor meets the margin requirement. -/
theorem margin_of_floor_le {cost m priceF priceP : ℚ} (hc : 0 < cost)
    (hm1 : m < 100) (hF : priceF = cost / (1 - m / 100)) (hP : priceF ≤ priceP) :
    m / 100 ≤ (priceP - cost) / priceP := by
  have h1 : (0 : ℚ) < 1 - m / 100 := by linarith
  have hFpos : 0 < priceF := by
    rw [hF]; exact div_pos hc h1
  have hPpos : 0 < priceP := lt_of_lt_of_le hFpos hP
  have key : cost ≤ priceP * (1 - m / 100) := by
    have := hP
    rw [hF, div_le_iff₀ h1] at this
    linarith
  rw [le_div_iff₀ hPpos]
  nlinarith

theorem marginFloor_pos {p : ProductInput} {c : OptimizationConstraints}
    (hc : 0 < p.unit_cost) (hm1 : c.min_margin_percent < 100) :
    0 < marginFloor p c := by
  have h1 : (0 : ℚ) < 1 - c.min_margin_percent / 100 := by linarith
  exact div_pos hc h1

theorem marginFloor_le_clampPrice (p : ProductInput)
    (c : OptimizationConstraints) (cand : ℚ) :
    marginFloor p c ≤ (clampPrice p c cand).1 := by
  rw [clampPrice]
  split
  · split
    · exact le_refl _
    · exact le_of_not_lt (by assumption)
  · split
    · exact le_refl _
    · exact le_of_not_lt (by assumption)

theorem clampPrice_floor_flag {p : ProductInput} {c : OptimizationConstraints}
    {cand : ℚ} (h : "margin_floor_applied" ∈ (clampPrice p c cand).2) :
    (clampPrice p c cand).1 = marginFloor p c := by
  rw [clampPrice] at h ⊢
  split_ifs at h ⊢ <;> simp_all

theorem clampPrice_no_floor_flag_le_cap {p : ProductInput}
    {c : OptimizationConstraints} {cand : ℚ}
    (h : "margin_floor_applied" ∉ (clampPrice p c cand).2) :
    (clampPrice p c cand).1 ≤ upperCap p c := by
  rw [clampPrice] at h ⊢
  split_ifs at h ⊢ with h1 h2 h3
  · simp_all
  · exact le_refl _
  · simp_all
  · exact le_of_not_lt h1

theorem clampPrice_cap_flag_eq {p : ProductInput}
    {c : OptimizationConstraints} {cand : ℚ}
    (hcap : "increase_cap_applied" ∈ (clampPrice p c cand).2)
    (hfloor : "margin_floor_applied" ∉ (clampPrice p c cand).2) :
    (clampPrice p c cand).1 = upperCap p c := by
  rw [clampPrice] at hcap hfloor ⊢
  split_ifs at hcap ⊢ <;> simp_all

theorem applyPsych_ge_floor {e : Bool} {f q : ℚ} (h : f ≤ q) :
    f ≤ (applyPsych e f q).1 := by
  rw [applyPsych]
  split_ifs with h1 h2
  · exact h
  · exact le_of_not_lt h2
  · exact h

theorem applyPsych_not_applied_eq {e : Bool} {f q : ℚ}
    (h : (applyPsych e f q).2.1 = false) : (applyPsych e f q).1 = q := by
  rw [applyPsych] at h ⊢
  split_ifs at h ⊢ <;> simp_all

theorem applyPsych_flags {e : Bool} {f q : ℚ} {s : String}
    (h : s ∈ (applyPsych e f q).2.2) : s = "psychological_pricing_skipped" := by
  rw [applyPsych] at h
  split_ifs at h <;> simp_all

theorem finalPrice_ge_floor (p : ProductInput) (c : OptimizationConstraints)
    (cand : ℚ) : marginFloor p c ≤ finalPrice p c cand :=
  applyPsych_ge_floor (marginFloor_le_clampPrice p c cand)

theorem finalFlags_floor {p : ProductInput} {c : OptimizationConstraints}
    {cand : ℚ} (h : "margin_floor_applied" ∈ finalFlags p c cand) :
    (clampPrice p c cand).1 = marginFloor p c := by
  rw [finalFlags, List.mem_append] at h
  rcases h with h | h
  · exact clampPrice_floor_flag h
  · exact absurd (applyPsych_flags h) (by decide)

theorem optimize_ok_elim {p : ProductInput} {os : List CompetitorData}
    {c : OptimizationConstraints} {r : PriceRecommendation}
    (h : optimize p os c = Except.ok r) : r = mkRecommendation p os c := by
  rw [optimize] at h
  split at h
  · cases h
  · cases h; rfl

theorem mkRec_price (p : ProductInput) (os : List CompetitorData)
    (c : OptimizationConstraints) :
    (mkRecommendation p os c).recommended_price =
      finalPrice p c (candidateOf p c (optPrices p os)) := rfl

theorem mkRec_flags (p : ProductInput) (os : List CompetitorData)
    (c : OptimizationConstraints) :
    (mkRecommendation p os c).constraint_flags =
      finalFlags p c (candidateOf p c (optPrices p os)) := rfl

theorem mkRec_psych (p : ProductInput) (os : List CompetitorData)
    (c : OptimizationConstraints) :
    (mkRecommendation p os c).psychological_price_applied =
      psychAppliedOf p c (candidateOf p c (optPrices p os)) := rfl

theorem mkRec_pcp (p : ProductInput) (os : List CompetitorData)
    (c : OptimizationConstraints) :
    (mkRecommendation p os c).price_change_percent =
      (finalPrice p c (candidateOf p c (optPrices p os)) - p.current_price) /
          p.current_price * 100 := rfl

theorem mkRec_conf_fallback {p : ProductInput} {os : List CompetitorData}
    {c : OptimizationConstraints} (h : optPrices p os = []) :
    (mkRecommendation p os c).confidence_score = fallbackConfidence := by
  simp [mkRecommendation, h]

/-! ### Helper lemmas on the scrape-job state machine -/

theorem jobStep_errors_le {a b : ScrapeJob} (h : JobStep a b) :
    a.errors.length ≤ b.errors.length := by
  cases h <;> simp [List.length_append]

theorem reflTrans_errors_le {a b : ScrapeJob}
    (h : Relation.ReflTransGen JobStep a b) :
    a.errors.length ≤ b.errors.length := by
  induction h with
  | refl => exact le_refl _
  | tail _ hstep ih => exact le_trans ih (jobStep_errors_le hstep)

theorem jobStep_inv {a b : ScrapeJob} (h : JobStep a b)
    (h1 : a.completed_stores ≤ a.total_stores)
    (_h2 : a.status = ScrapeStatus.completed →
      a.completed_stores = a.total_stores) :
    b.completed_stores ≤ b.total_stores
    ∧ (b.status = ScrapeStatus.completed →
        b.completed_stores = b.total_stores) := by
  cases h with
  | start hj => exact ⟨h1, fun hc => ScrapeStatus.noConfusion hc⟩
  | workerOk found cs hj hlt =>
      exact ⟨hlt, fun hc => ScrapeStatus.noConfusion (hj.symm.trans hc)⟩
  | workerFail e cs hj hlt =>
      exact ⟨hlt, fun hc => ScrapeStatus.noConfusion (hj.symm.trans hc)⟩
  | finish hj hall => exact ⟨le_of_eq hall, fun _ => hall⟩
  | abort e hj => exact ⟨h1, fun hc => ScrapeStatus.noConfusion hc⟩

theorem jobReachable_inv {stores : List String} {j : ScrapeJob}
    (h : JobReachable stores j) :
    j.completed_stores ≤ j.total_stores
    ∧ (j.status = ScrapeStatus.completed →
        j.completed_stores = j.total_stores) := by
  induction h with
  | refl => exact ⟨Nat.zero_le _, fun hc => ScrapeStatus.noConfusion hc⟩
  | tail _ hstep ih => exact jobStep_inv hstep ih.1 ih.2

/-! ### Claim theorems -/

/-- C3: the optimizer is deterministic — two calls on identical inputs
return the same recommendation; side-effect freedom is intrinsic to the
pure-function model of `optimize`. -/
theorem optimize_deterministic (p : ProductInput) (os : List CompetitorData)
    (c : OptimizationConstraints) : optimize p os c = optimize p os c := rfl

/-- C4: the batch coordinator returns its recommendations sorted in
descending order of `expected_profit_change` — every adjacent pair is
ordered. -/
theorem optimizeBatch_sorted_desc (ps : List ProductInput)
    (compData : String → List CompetitorData) (c : OptimizationConstraints) :
    List.Chain'
      (fun a b => b.expected_profit_change ≤ a.expected_profit_change)
      (optimizeBatch ps compData c) := by
  rw [optimizeBatch]
  haveI : IsTotal PriceRecommendation
      (fun a b => b.expected_profit_change ≤ a.expected_profit_change) :=
    ⟨fun a b => le_total _ _⟩
  haveI : IsTrans PriceRecommendation
      (fun a b => b.expected_profit_change ≤ a.expected_profit_change) :=
    ⟨fun a b d h1 h2 => le_trans h2 h1⟩
  exact List.Pairwise.chain' (List.sorted_insertionSort _ _)

/-- C8: every reachable scrape job keeps `completedStores ≤ totalStores`,
a completed job has `completedStores = totalStores`, and along any further
steps (successive polls) the errors list never shrinks. -/
theorem scrapeJob_invariants (stores : List String) (j j' : ScrapeJob)
    (hreach : JobReachable stores j)
    (hsteps : Relation.ReflTransGen JobStep j j') :
    j.completed_stores ≤ j.total_stores
    ∧ (j.status = ScrapeStatus.completed →
        j.completed_stores = j.total_stores)
    ∧ j.errors.length ≤ j'.errors.length :=
  ⟨(jobReachable_inv hreach).1, (jobReachable_inv hreach).2,
    reflTrans_errors_le hsteps⟩

/-- Witness for C8: the freshly submitted one-store job is reachable and
satisfies the invariants. -/
theorem scrapeJob_invariants_witness :
    JobReachable ["store-a"] (initJob ["store-a"])
    ∧ (initJob ["store-a"]).completed_stores ≤ (initJob ["store-a"]).total_stores
    ∧ ((initJob ["store-a"]).status = ScrapeStatus.completed →
        (initJob ["store-a"]).completed_stores = (initJob ["store-a"]).total_stores)
    ∧ (initJob ["store-a"]).errors.length ≤ (initJob ["store-a"]).errors.length :=
  ⟨Relation.ReflTransGen.refl,
    scrapeJob_invariants ["store-a"] _ _ Relation.ReflTransGen.refl
      Relation.ReflTransGen.refl⟩

/-- C10: after adding a task, the stored history has at most 10 entries,
the new task is the first entry, and the prior entries follow in order
with everything beyond the first 9 discarded. -/
theorem addTaskToHistory_spec (t : TaskHistory) (history : List TaskHistory) :
    (addTaskToHistory t history).length ≤ 10
    ∧ (addTaskToHistory t history).head? = some t
    ∧ (addTaskToHistory t history).tail = history.take 9 := by
  refine ⟨?_, rfl, rfl⟩
  rw [addTaskToHistory]
  simp only [List.length_cons, List.length_take]
  omega

/-- C1: every produced recommendation meets the margin floor — the margin
is at least `minMarginPercent/100`; when `margin_floor_applied` is flagged
the price never sits below the floor, and is clamped exactly to it when
psychological rounding did not move it. -/
theorem optimize_margin_floor (p : ProductInput) (os : List CompetitorData)
    (c : OptimizationConstraints) (r : PriceRecommendation)
    (hok : optimize p os c = Except.ok r)
    (hc : 0 < p.unit_cost) (hm1 : c.min_margin_percent < 100) :
    c.min_margin_percent / 100 ≤
      (r.recommended_price - p.unit_cost) / r.recommended_price
    ∧ ("margin_floor_applied" ∈ r.constraint_flags →
        marginFloor p c ≤ r.recommended_price)
    ∧ ("margin_floor_applied" ∈ r.constraint_flags →
        r.psychological_price_applied = false →
        r.recommended_price = marginFloor p c) := by
  have hr := optimize_ok_elim hok
  subst hr
  rw [mkRec_price, mkRec_flags, mkRec_psych]
  have hge := finalPrice_ge_floor p c (candidateOf p c (optPrices p os))
  refine ⟨margin_of_floor_le hc hm1 rfl hge, fun _ => hge, ?_⟩
  intro hmem hnap
  have h1 := finalFlags_floor hmem
  have h2 : finalPrice p c (candidateOf p c (optPrices p os)) =
      (clampPrice p c (candidateOf p c (optPrices p os))).1 :=
    applyPsych_not_applied_eq hnap
  rw [h2, h1]

/-- Witness for C1: the demo product's recommendation meets the 20%
margin floor. -/
theorem optimize_margin_floor_witness :
    (0 : ℚ) < demoProduct.unit_cost
    ∧ demoConstraints.min_margin_percent < 100
    ∧ demoConstraints.min_margin_percent / 100 ≤
        (demoRec.recommended_price - demoProduct.unit_cost) /
          demoRec.recommended_price :=
  ⟨by decide, by decide,
    (optimize_margin_floor demoProduct [] demoConstraints demoRec rfl
      (by decide) (by decide)).1⟩

/-- C2 as stated fails on the model: with a 3% increase cap and aggressive
fallback positioning the optimizer returns a −5% price change with no
constraint flag, so `|priceChangePercent| ≤ maxPriceIncreasePercent` is
violated — the cap bounds only upward movement. -/
theorem increase_cap_claim_cex :
    (optimize demoProduct [] capCexConstraints).toOption.map
        (fun r => (r.price_change_percent, r.constraint_flags)) =
      some (-5, [])
    ∧ ¬(|(-5 : ℚ)| ≤ capCexConstraints.max_price_increase_percent) := by
  have hok : optimize demoProduct [] capCexConstraints =
      Except.ok (mkRecommendation demoProduct [] capCexConstraints) := rfl
  have hpcp : (mkRecommendation demoProduct [] capCexConstraints).price_change_percent = -5 := by
    rw [mkRec_pcp]
    norm_num [finalPrice, clampPrice, applyPsych, candidateOf, optPrices,
      upperCap, marginFloor, fallbackFactor, demoProduct, capCexConstraints]
  have hfl : (mkRecommendation demoProduct [] capCexConstraints).constraint_flags = [] := by
    rw [mkRec_flags]
    norm_num [finalFlags, clampPrice, applyPsych, candidateOf, optPrices,
      upperCap, marginFloor, fallbackFactor, demoProduct, capCexConstraints]
  refine ⟨?_, ?_⟩
  · rw [hok]
    simp [Except.toOption, hpcp, hfl]
  · rw [capCexConstraints]
    norm_num

/-- C2 amended: with psychological rounding off, the price change percent
stays at or below the cap unless the margin floor overrode it, and when
the increase cap was the binding bound the change equals the cap exactly;
downward changes are not bounded by the cap. -/
theorem increase_cap_amended (p : ProductInput) (os : List CompetitorData)
    (c : OptimizationConstraints) (r : PriceRecommendation)
    (hok : optimize p os c = Except.ok r)
    (hcur : 0 < p.current_price)
    (hpsy : c.psychological_pricing = false) :
    ("margin_floor_applied" ∉ r.constraint_flags →
       r.price_change_percent ≤ c.max_price_increase_percent)
    ∧ ("increase_cap_applied" ∈ r.constraint_flags →
       "margin_floor_applied" ∉ r.constraint_flags →
       r.price_change_percent = c.max_price_increase_percent) := by
  have hr := optimize_ok_elim hok
  subst hr
  rw [mkRec_pcp, mkRec_flags]
  have hfin : finalPrice p c (candidateOf p c (optPrices p os)) =
      (clampPrice p c (candidateOf p c (optPrices p os))).1 := by
    simp [finalPrice, applyPsych, hpsy]
  have hflg : finalFlags p c (candidateOf p c (optPrices p os)) =
      (clampPrice p c (candidateOf p c (optPrices p os))).2 := by
    simp [finalFlags, applyPsych, hpsy]
  rw [hfin, hflg]
  have h0 : p.current_price ≠ 0 := ne_of_gt hcur
  constructor
  · intro hnf
    have hle := clampPrice_no_floor_flag_le_cap hnf
    rw [upperCap] at hle
    rw [div_mul_eq_mul_div, div_le_iff₀ hcur]
    nlinarith
  · intro hcap hnf
    have heq := clampPrice_cap_flag_eq hcap hnf
    rw [heq, upperCap]
    field_simp
    ring

/-- Witness for C2's amended statement: the demo recommendation (no flags,
psychological pricing off) respects the cap. -/
theorem increase_cap_amended_witness :
    demoRec.price_change_percent ≤ demoConstraints.max_price_increase_percent :=
  (increase_cap_amended demoProduct [] demoConstraints demoRec rfl
      (by decide) rfl).1 (by
    rw [demoRec, mkRec_flags]
    have hf : fallbackFactor "competitive" = 1 := rfl
    norm_num [finalFlags, clampPrice, applyPsych, candidateOf, optPrices,
      upperCap, marginFloor, hf, demoProduct, demoConstraints])

/-- C7: the optimizer fails (with `InvalidInput`) exactly when the unit
cost exceeds the current price or the current price is nonpositive; with
valid product data and no usable competitor price it still succeeds, at
the lowered fallback confidence. -/
theorem optimize_error_iff (p : ProductInput) (os : List CompetitorData)
    (c : OptimizationConstraints) :
    ((optimize p os c).isOk = false ↔
      (p.unit_cost > p.current_price ∨ p.current_price ≤ 0))
    ∧ (¬(p.unit_cost > p.current_price ∨ p.current_price ≤ 0) →
        optPrices p os = [] →
        ∃ r, optimize p os c = Except.ok r
          ∧ r.confidence_score = fallbackConfidence
          ∧ fallbackConfidence < 1/2) := by
  rw [optimize]
  split
  case isTrue h =>
    refine ⟨iff_of_true rfl h.symm, fun hv _ => absurd h.symm hv⟩
  case isFalse h =>
    refine ⟨iff_of_false (by simp [Except.isOk, Except.toBool]) (fun hcond => h hcond.symm), ?_⟩
    intro _ hn
    exact ⟨mkRecommendation p os c, rfl, mkRec_conf_fallback hn,
      by norm_num [fallbackConfidence]⟩

/-- Witness for C7: the product with cost above price is rejected; the
valid demo product with no competitor data succeeds at fallback
confidence. -/
theorem optimize_error_iff_witness :
    ((optimize badProduct [] demoConstraints).isOk = false ↔
      (badProduct.unit_cost > badProduct.current_price
        ∨ badProduct.current_price ≤ 0))
    ∧ (∃ r, optimize demoProduct [] demoConstraints = Except.ok r
        ∧ r.confidence_score = fallbackConfidence
        ∧ fallbackConfidence < 1/2) :=
  ⟨(optimize_error_iff badProduct [] demoConstraints).1,
    (optimize_error_iff demoProduct [] demoConstraints).2 (by decide) rfl⟩

/-- C5 as stated fails on the code: the category token "Bottle" occurs in
the title "Bottle deal" both verbatim and case-insensitively, so the claim
accepts the observation, but the code lowercases only the title and then
looks for the unlowered category token, so the matcher rejects it. -/
theorem matcher_claim_cex :
    matcherAccepts (some "Bottle") titleCexObs = false
    ∧ specMatcherAccepts (some "Bottle") titleCexObs = true :=
  ⟨by decide, by decide⟩

/-- C5 amended: the matcher accepts exactly when the category is present,
nonempty and occurs verbatim in the lowercased title (case-insensitive in
the title only), or when the match score is present and exceeds 0.1; the
score forwarded to the optimizer is the match score, or 0 when absent. -/
theorem matcher_accepts_iff (copt : Option String) (r : ScrapedProduct) :
    (matcherAccepts copt r = true ↔
      ((∃ cat, copt = some cat ∧ cat ≠ ""
          ∧ strIncludes (strLower r.title) cat = true)
        ∨ (∃ s, r.match_score = some s ∧ (1 : ℚ)/10 < s)))
    ∧ (toCompetitorData r).match_confidence = r.match_score.getD 0 := by
  constructor
  · rw [matcherAccepts.eq_def, Bool.or_eq_true]
    refine or_congr ?_ ?_
    · cases copt with
      | none => simp
      | some c => simp [Bool.and_eq_true, decide_eq_true_eq, and_assoc]
    · cases hms : r.match_score with
      | none => simp
      | some s =>
          simp only [Bool.and_eq_true, decide_eq_true_eq, Option.some.injEq]
          constructor
          · rintro ⟨-, hlt⟩
            exact ⟨s, rfl, hlt⟩
          · rintro ⟨s', hs', hlt⟩
            cases hs'
            exact ⟨ne_of_gt (lt_trans (by norm_num) hlt), hlt⟩
  · show jsScore r.match_score = r.match_score.getD 0
    cases r.match_score with
    | none => rfl
    | some s =>
        show (if s = 0 then 0 else s) = s
        split_ifs with h0
        · exact h0.symm
        · rfl

/-- C6: on any observation list with at least one present positive price,
the aggregation keeps exactly the present positive prices, `min` is the
least and `max` the greatest of them, and the median is the middle of the
ascending sorted permutation of them (mean of the two middles when the
count is even). -/
theorem aggregation_min_median_max (cs : List ScrapedProduct)
    (h : positivePrices cs ≠ []) :
    (jsMinList (positivePrices cs) ∈ positivePrices cs
      ∧ ∀ x ∈ positivePrices cs, jsMinList (positivePrices cs) ≤ x)
    ∧ (jsMaxList (positivePrices cs) ∈ positivePrices cs
      ∧ ∀ x ∈ positivePrices cs, x ≤ jsMaxList (positivePrices cs))
    ∧ (sortAsc (positivePrices cs)).Sorted (· ≤ ·)
    ∧ List.Perm (sortAsc (positivePrices cs)) (positivePrices cs)
    ∧ (∀ q : ℚ, q ∈ positivePrices cs ↔ ∃ ob ∈ cs, ob.price = some q ∧ 0 < q)
    ∧ medianOf (positivePrices cs) =
        (if (sortAsc (positivePrices cs)).length % 2 = 0 then
          ((sortAsc (positivePrices cs)).getD
              ((sortAsc (positivePrices cs)).length / 2 - 1) 0 +
            (sortAsc (positivePrices cs)).getD
              ((sortAsc (positivePrices cs)).length / 2) 0) / 2
        else
          (sortAsc (positivePrices cs)).getD
            ((sortAsc (positivePrices cs)).length / 2) 0) := by
  refine ⟨⟨jsMinList_mem h, fun x hx => jsMinList_le hx⟩,
    ⟨jsMaxList_mem h, fun x hx => le_jsMaxList hx⟩,
    sortAsc_sorted _, sortAsc_perm _, ?_, rfl⟩
  intro q
  rw [positivePrices]
  simp only [List.mem_map, List.mem_filter]
  constructor
  · rintro ⟨ob, ⟨hmem, hpred⟩, hval⟩
    cases hp : ob.price with
    | none => rw [hp] at hpred; exact absurd hpred (by simp [keepPrice])
    | some v =>
        rw [hp] at hpred hval
        simp only [Option.getD_some] at hval
        simp only [keepPrice, Bool.and_eq_true, decide_eq_true_eq] at hpred
        subst hval
        exact ⟨ob, hmem, hp, hpred.2⟩
  · rintro ⟨ob, hmem, hsome, hpos⟩
    refine ⟨ob, ⟨hmem, ?_⟩, ?_⟩
    · rw [hsome]
      simp only [keepPrice, Bool.and_eq_true, decide_eq_true_eq]
      exact ⟨ne_of_gt hpos, hpos⟩
    · rw [hsome]; rfl

/-- Witness for C6: the single demo observation yields the price list
`[10]`, whose minimum is a member and a lower bound. -/
theorem aggregation_witness :
    positivePrices [titleCexObs] ≠ []
    ∧ jsMinList (positivePrices [titleCexObs]) ∈ positivePrices [titleCexObs]
    ∧ List.Perm (sortAsc (positivePrices [titleCexObs]))
        (positivePrices [titleCexObs]) :=
  ⟨by decide,
    (aggregation_min_median_max [titleCexObs] (by decide)).1.1,
    (aggregation_min_median_max [titleCexObs] (by decide)).2.2.2.1⟩

/-- C9: the comparison row classifies a product as underpriced exactly
below the market minimum and overpriced exactly above the market maximum
(competitive in between), and the profit opportunity is 80% of the gap to
the median when underpriced — hence positive — and 0 otherwise. -/
theorem comparison_position_spec (p : OurProduct) (cs : List ScrapedProduct)
    (row : ComparisonRow) (h : makeComparisonRow p cs = some row) :
    (row.our_position = "underpriced" ↔ ourPriceUsd p < row.min_price)
    ∧ (row.our_position = "overpriced" ↔ row.max_price < ourPriceUsd p)
    ∧ (row.our_position = "competitive" ↔
        (row.min_price ≤ ourPriceUsd p ∧ ourPriceUsd p ≤ row.max_price))
    ∧ (row.our_position = "underpriced" →
        row.profit_opportunity = (row.median_price - ourPriceUsd p) * (8/10)
        ∧ 0 < row.profit_opportunity)
    ∧ (row.our_position ≠ "underpriced" → row.profit_opportunity = 0) := by
  rw [makeComparisonRow] at h
  split at h
  · cases h
  split at h
  · cases h
  cases h
  have hne : positivePrices (matchedCompetitors p cs) ≠ [] := by
    simpa [List.isEmpty_iff] using (by assumption :
      ¬(positivePrices (matchedCompetitors p cs)).isEmpty = true)
  have hmn_md := (medianOf_bounds hne).1
  have hmn_mx := jsMinList_le (jsMaxList_mem hne)
  dsimp only
  by_cases h1 : ourPriceUsd p < jsMinList (positivePrices (matchedCompetitors p cs))
  · rw [positionOf, if_pos h1]
    refine ⟨iff_of_true rfl h1,
      iff_of_false (by decide) (by intro hlt; linarith),
      iff_of_false (by decide) (fun hc => absurd hc.1 (not_le.mpr h1)),
      fun _ => ⟨by rw [opportunityOf, if_pos rfl], ?_⟩,
      fun hx => absurd rfl hx⟩
    rw [opportunityOf, if_pos rfl]
    have : ourPriceUsd p < medianOf (positivePrices (matchedCompetitors p cs)) :=
      lt_of_lt_of_le h1 hmn_md
    nlinarith
  · rw [positionOf, if_neg h1]
    by_cases h2 : ourPriceUsd p > jsMaxList (positivePrices (matchedCompetitors p cs))
    · rw [if_pos h2]
      exact ⟨iff_of_false (by decide) h1,
        iff_of_true rfl h2,
        iff_of_false (by decide) (fun hc => absurd hc.2 (not_le.mpr h2)),
        fun hu => absurd hu (by decide),
        fun _ => by rw [opportunityOf, if_neg (by decide)]⟩
    · rw [if_neg h2]
      exact ⟨iff_of_false (by decide) h1,
        iff_of_false (by decide) h2,
        iff_of_true rfl ⟨not_lt.mp h1, not_lt.mp h2⟩,
        fun hu => absurd hu (by decide),
        fun _ => by rw [opportunityOf, if_neg (by decide)]⟩

/-- Witness for C9: the demo product against the single demo observation
is classified overpriced, above the market maximum. -/
theorem comparison_position_witness :
    makeComparisonRow demoOurProduct [titleCexObs] = some demoRow
    ∧ (demoRow.our_position = "overpriced" ↔
        demoRow.max_price < ourPriceUsd demoOurProduct) := by
  have hmc : matchedCompetitors demoOurProduct [titleCexObs] = [titleCexObs] := by
    decide
  have hpp : positivePrices [titleCexObs] = [10] := by decide
  have hrow : makeComparisonRow demoOurProduct [titleCexObs] = some demoRow := by
    rw [makeComparisonRow, hmc, hpp]
    norm_num [jsMinList, jsMaxList, medianOf, sortAsc, positionOf,
      opportunityOf, ourPriceUsd, demoOurProduct, demoRow, titleCexObs]
    decide
  exact ⟨hrow,
    (comparison_position_spec demoOurProduct [titleCexObs] demoRow hrow).2.1⟩

end PriceOptim
